import Mathlib

/-!
Verification of the dream2nix CLI orchestrator (src/apps/cli.py).

The development shallowly embeds the `translate` command and its helpers:
Python dicts become association lists with insert-or-replace update
semantics, the filesystem becomes an explicit `World` record, the four
external process invocations (selection oracle, translator build,
translator run, consolidation FOD build) become data supplied through an
`Env` record, and every fatal path (`raise` / `exit(1)`) becomes an
`Except CliError` result.  Uncaught exceptions and `exit(1)` both make the
Python process exit with status 1, a normal return exits 0; `exitCode`
records that mapping.
-/

namespace Dream2nix

/-! ### Association lists as Python dicts -/

/-- First-match lookup in an association list (Python `d[k]` / `k in d`). -/
def lookupKey {V : Type} (k : String) : List (String × V) → Option V
  | [] => none
  | p :: rest => if p.1 == k then some p.2 else lookupKey k rest

/-- Python `d[k] = v`: replace the value of an existing key in place,
otherwise append the new binding at the end (dict insertion order). -/
def insertKey {V : Type} (d : List (String × V)) (k : String) (v : V) :
    List (String × V) :=
  if d.any (fun p => p.1 == k) then
    d.map (fun p => if p.1 == k then (k, v) else p)
  else d ++ [(k, v)]

/-- Python `d.update(o)`: fold every binding of the overlay into `d`. -/
def updateDict {V : Type} (d o : List (String × V)) : List (String × V) :=
  o.foldl (fun acc p => insertKey acc p.1 p.2) d

/-- The keys of an association list, in order. -/
def keysOf {V : Type} (d : List (String × V)) : List String :=
  d.map Prod.fst

/-- Right-biased choice on options, used to phrase lookup precedence. -/
def firstSome {V : Type} : Option V → Option V → Option V
  | some v, _ => some v
  | none, b => b

/-! ### Hash extraction: Python `re.search(r"FOD_PATH=(.*=)", text)`

`.` does not match a newline, `.*` is greedy, and `re.search` returns the
match with the leftmost feasible starting position.  So a match starts at
the first occurrence of the literal `FOD_PATH=` that is followed, on the
same line, by at least one further `=`; the captured group then runs from
just after that literal to the last `=` of that line. -/

/-- The literal part of the pattern, `FOD_PATH=` (9 characters). -/
def fodToken : List Char :=
  ['F', 'O', 'D', '_', 'P', 'A', 'T', 'H', '=']

/-- The portion of the text `.` can still traverse: up to the next newline. -/
def lineSeg (cs : List Char) : List Char :=
  cs.takeWhile (fun c => c != '\n')

/-- Greedy `(.*=)` on a single-line segment: the longest prefix ending in
`=`, i.e. everything up to and including the last `=` of the segment. -/
def lastEqSplit (cs : List Char) : Option (List Char) :=
  match cs.reverse.dropWhile (fun c => c != '=') with
  | [] => none
  | l => some l.reverse

/-- `re.search(r"FOD_PATH=(.*=)", text)`: scan starting positions left to
right; at the first position where the literal matches and an `=` follows
on the same line, return the greedy capture; otherwise keep scanning. -/
def extractFOD : List Char → Option (List Char)
  | [] => none
  | c :: rest =>
    if fodToken.isPrefixOf (c :: rest) then
      match lastEqSplit (lineSeg (List.drop 8 rest)) with
      | some g => some g
      | none => extractFOD rest
    else extractFOD rest

/-- The regex can produce a match starting at offset `i` of the text:
the literal `FOD_PATH=` sits there and an `=` follows on the same line. -/
def fodMatchB (cs : List Char) (i : Nat) : Bool :=
  fodToken.isPrefixOf (cs.drop i) &&
    (lineSeg ((cs.drop i).drop 9)).any (fun c => c == '=')

/-! ### The lock file

`{generic: {sourcesCombinedHash: string}, sources: {id: {hash: string, ...}}}`.
Each source entry is a JSON object; only its keys and (opaque) values
matter here, so an entry is an association list of string fields. -/

/-- One entry of the `sources` mapping: a JSON object, field name to
(opaque) field value. -/
def Entry : Type := List (String × String)

instance : DecidableEq Entry := by
  unfold Entry
  infer_instance

/-- The produced lock file, restricted to the fields the orchestrator
reads and writes: `generic.sourcesCombinedHash` and `sources`. -/
structure LockFile where
  sourcesCombinedHash : String
  sources : List (String × Entry)
deriving DecidableEq

/-- Errors of the run.  Python raises plain `Exception`s or calls
`exit(1)`; the constructors record which exit the model took and the
diagnostic text it surfaced. -/
inductive CliError where
  /-- `raise Exception(f"Input path ... does not exist")` -/
  | validationError (path : String)
  /-- `os.remove(output)` on a path that is not a regular file. -/
  | osError
  /-- oracle (`nix eval ... selectTranslatorJSON`) exited non-zero;
  its stderr is surfaced. -/
  | oracleFailed (stderrText : String)
  /-- `nix build ... translateBin` exited non-zero; stderr surfaced. -/
  | buildFailed (stderrText : String)
  /-- `raise Exception("Translator failed to create dream.lock")`. -/
  | outputContractViolation
  /-- `json.load` failed on the produced lock file. -/
  | lockUnparsable
  /-- `del source["hash"]` on an entry without that field. -/
  | keyError
  /-- `raise Exception("Could not find FOD hash in FOD log")`, after
  printing the FOD build stderr and stdout. -/
  | hashExtractionError (stderrText stdoutText : String)
deriving DecidableEq

/-- `strip_hashes_from_lock`, one entry:
`del source["hash"]` — `KeyError` if the field is absent, otherwise the
binding for `hash` is removed and every other field is untouched. -/
def delHash (e : Entry) : Except CliError Entry :=
  if e.any (fun f => f.1 == "hash") then
    .ok (e.filter (fun f => f.1 != "hash"))
  else .error .keyError

/-- `for source in lock["sources"].values(): del source["hash"]`. -/
def stripSources : List (String × Entry) → Except CliError (List (String × Entry))
  | [] => .ok []
  | kv :: rest =>
    match delHash kv.2 with
    | .error e => .error e
    | .ok e2 =>
      match stripSources rest with
      | .error e => .error e
      | .ok rest2 => .ok ((kv.1, e2) :: rest2)

/-- `strip_hashes_from_lock(lock)` (cli.py lines 14-16). -/
def strip_hashes_from_lock (l : LockFile) : Except CliError LockFile :=
  match stripSources l.sources with
  | .error e => .error e
  | .ok s => .ok ⟨l.sourcesCombinedHash, s⟩

/-- Checkpoint A of consolidation: strip every per-source hash, then
`lock["generic"]["sourcesCombinedHash"] = ""` (cli.py lines 150-151). -/
def checkpointA (l : LockFile) : Except CliError LockFile :=
  match strip_hashes_from_lock l with
  | .error e => .error e
  | .ok s => .ok ⟨"", s.sources⟩

/-- The content checkpoint A persists, written out explicitly: every
source entry minus its `hash` field, and an empty combined hash. -/
def checkpointAContent (l : LockFile) : LockFile :=
  ⟨"", l.sources.map (fun kv => (kv.1, kv.2.filter (fun f => f.1 != "hash")))⟩

/-! ### The filesystem and the external processes -/

/-- Content of a regular file.  The orchestrator only ever parses the
produced lock file, so content is either a parseable lock (`lockData`) or
opaque bytes (`rawData`, on which `json.load` into a lock fails). -/
inductive FileData where
  | lockData (l : LockFile)
  | rawData (s : String)
deriving DecidableEq

/-- The filesystem: regular files with their content, plus directories.
A path may be neither (it does not exist, or is another node kind). -/
structure World where
  files : List (String × FileData)
  dirs : List String
deriving DecidableEq

/-- `os.path.isfile p`. -/
def isFileW (w : World) (p : String) : Bool :=
  (lookupKey p w.files).isSome

/-- `os.path.isdir p`. -/
def isDirW (w : World) (p : String) : Bool :=
  w.dirs.contains p

/-- `os.path.exists p`. -/
def pathExists (w : World) (p : String) : Bool :=
  isFileW w p || isDirW w p

/-- `os.remove p` on a path known to be a regular file. -/
def removeFile (w : World) (p : String) : World :=
  { w with files := w.files.filter (fun f => f.1 != p) }

/-- Write `d` to path `p` (create or overwrite). -/
def writeFile (w : World) (p : String) (d : FileData) : World :=
  { w with files := insertKey w.files p d }

/-- A value of the argument-IPC JSON object: the computed fields are a
string (`outputFile`, `selector`) or a list of paths (`inputFiles`,
`inputDirectories`); special-arg and default values are strings. -/
inductive Value where
  | str (s : String)
  | strList (l : List String)
deriving DecidableEq

/-- A finished external process: `subprocess.run(..., capture_output=True)`. -/
structure ProcResult where
  returncode : Nat
  stdout : String
  stderr : String
deriving DecidableEq

/-- The JSON object the selection oracle prints on success:
`{subsystem, type, name, SpecialArgsDefaults}`. -/
structure OracleOutput where
  subsystem : String
  ttype : String
  name : String
  specialArgsDefaults : List (String × Value)

/-- The external collaborators of one `translate` run, fixed up front:
`realpath` resolution, the oracle process, the translator-build process,
the effect the translator executable has on the filesystem (it receives
the merged argument object and may write files; its exit status and
output streams are not part of the model because the code discards
them), and the consolidation FOD build process. -/
structure Env where
  realpath : String → String
  procEval : ProcResult
  oracleOutput : OracleOutput
  procBuild : ProcResult
  translatorRun : List (String × Value) → World → World
  procFOD : ProcResult

/-- The parsed command line of `translate` (flag parsing itself is out of
scope): positional inputs, `--output`, `--translator`,
`--combined`, and the collected `--arg_<name>` values with the
`arg_` prefix already dropped (cli.py lines 48-52). -/
structure TranslateArgs where
  input : List String
  output : String
  translator : String
  combined : Bool
  specialArgs : List (String × Value)

/-! ### The `translate` command (cli.py lines 43-180) -/

/-- Input Validator (cli.py lines 55-62): raise on the first input path
that does not exist, otherwise classify the inputs into files and
directories, preserving their order. -/
def validateInputs (w : World) (paths : List String) :
    Except CliError (List String × List String) :=
  match paths.find? (fun p => !(pathExists w p)) with
  | some p => .error (.validationError p)
  | none =>
    .ok (paths.filter (fun p => isFileW w p), paths.filter (fun p => isDirW w p))

/-- `inputFiles` (cli.py line 61). -/
def inputFilesOf (w : World) (args : TranslateArgs) : List String :=
  args.input.filter (fun p => isFileW w p)

/-- `inputDirectories` (cli.py line 62). -/
def inputDirectoriesOf (w : World) (args : TranslateArgs) : List String :=
  args.input.filter (fun p => isDirW w p)

/-- Output resolution (cli.py lines 64-69): append `/dream.lock` when the
given output is a directory, then `os.path.realpath`. -/
def resolvedOutput (env : Env) (args : TranslateArgs) (w : World) : String :=
  env.realpath
    (if isDirW w args.output then args.output ++ "/dream.lock" else args.output)

/-- The computed fields of the argument object
(`translatorInput = dict(inputFiles=..., inputDirectories=...,
outputFile=..., selector=...)`, cli.py lines 71-77). -/
def baseFields (inputFiles inputDirectories : List String)
    (outputFile selector : String) : List (String × Value) :=
  [("inputFiles", .strList inputFiles),
   ("inputDirectories", .strList inputDirectories),
   ("outputFile", .str outputFile),
   ("selector", .str selector)]

/-- The merged argument object handed to the translator
(`translatorInputWithDefaults`): oracle defaults, overlaid with the
computed fields, overlaid with the explicit special args
(`translatorInput.update(specialArgs)` at cli.py line 78, then
`translatorInputWithDefaults.update(translatorInput)` at line 112). -/
def mergedArgumentsOf (env : Env) (args : TranslateArgs) (w : World) :
    List (String × Value) :=
  updateDict env.oracleOutput.specialArgsDefaults
    (updateDict
      (baseFields (inputFilesOf w args) (inputDirectoriesOf w args)
        (resolvedOutput env args w) args.translator)
      args.specialArgs)

/-- `if os.path.exists(output): os.remove(output)` (cli.py lines 80-82).
`os.remove` raises `OSError` when the existing path is not a regular
file. -/
def removeIfExists (w : World) (p : String) : Except CliError World :=
  if pathExists w p then
    if isFileW w p then .ok (removeFile w p) else .error .osError
  else .ok w

/-- The filesystem the translator executable is invoked on: the output
path cleared (lines 80-82) and the `translator` build-output link,
created by `nix build -o translator` and resolved just before, removed
again (line 132). -/
def stagedWorld (env : Env) (args : TranslateArgs) (w0 : World) : World :=
  removeFile
    (if pathExists w0 (resolvedOutput env args w0) then
      removeFile w0 (resolvedOutput env args w0)
    else w0)
    "translator"

/-- The filesystem after the translator executable has run. -/
def worldAfterTranslator (env : Env) (args : TranslateArgs) (w0 : World) : World :=
  env.translatorRun (mergedArgumentsOf env args w0) (stagedWorld env args w0)

/-- Step 4 of consolidation: scrape `FOD_PATH=(.*=)` out of the FOD
stderr of the FOD build (cli.py lines 165-171).  On failure both captured streams
are surfaced (stderr printed first, then stdout) and the run aborts. -/
def hashFromFOD (pr : ProcResult) : Except CliError String :=
  match extractFOD pr.stderr.data with
  | some g => .ok (String.mk g)
  | none => .error (.hashExtractionError pr.stderr pr.stdout)

/-- Everything after the translator executable has run (cli.py lines
137-180): the output-existence check, parsing the produced lock, and —
when `--combined` was given — the two-checkpoint hash consolidation. -/
def postTranslate (env : Env) (args : TranslateArgs) (out : String)
    (w3 : World) : Except CliError Unit × World :=
  match lookupKey out w3.files with
  | none => (.error .outputContractViolation, w3)
  | some (.rawData _) => (.error .lockUnparsable, w3)
  | some (.lockData lock) =>
    if args.combined then
      match checkpointA lock with
      | .error e => (.error e, w3)
      | .ok lockA =>
        match hashFromFOD env.procFOD with
        | .error e => (.error e, writeFile w3 out (.lockData lockA))
        | .ok h =>
          (.ok (),
           writeFile (writeFile w3 out (.lockData lockA)) out
             (.lockData ⟨h, lockA.sources⟩))
    else (.ok (), w3)

/-- The `translate` command (cli.py lines 43-180): validate the inputs,
clear a stale output file, query the selection oracle (fatal if it exits
non-zero), build the translator (fatal if the build exits non-zero),
invoke the translator on the merged arguments, then hand over to the
post-processing and consolidation phase.  The returned `World` is the
filesystem when the run ends, whether it succeeded or aborted. -/
def translate (env : Env) (args : TranslateArgs) (w0 : World) :
    Except CliError Unit × World :=
  match validateInputs w0 args.input with
  | .error e => (.error e, w0)
  | .ok _ =>
    match removeIfExists w0 (resolvedOutput env args w0) with
    | .error e => (.error e, w0)
    | .ok w1 =>
      if env.procEval.returncode ≠ 0 then
        (.error (.oracleFailed env.procEval.stderr), w1)
      else if env.procBuild.returncode ≠ 0 then
        (.error (.buildFailed env.procBuild.stderr), w1)
      else
        postTranslate env args (resolvedOutput env args w0)
          (env.translatorRun (mergedArgumentsOf env args w0)
            (removeFile w1 "translator"))

/-- The exit status of the process: a normal return of `translate` exits
0, while both `exit(1)` and an uncaught exception exit 1. -/
def exitCode : Except CliError Unit → Nat
  | .ok _ => 0
  | .error _ => 1

/-- The run reaches the translator invocation: every input path exists,
clearing the stale output does not fail, and both the oracle and the
translator build exited zero. -/
def reachesTranslator (env : Env) (args : TranslateArgs) (w0 : World) : Bool :=
  args.input.all (fun p => pathExists w0 p) &&
  (!(pathExists w0 (resolvedOutput env args w0)) ||
    isFileW w0 (resolvedOutput env args w0)) &&
  (env.procEval.returncode == 0) &&
  (env.procBuild.returncode == 0)

/-- The whole run succeeds: it reaches the translator, the translator
leaves a parseable lock at the output path, and — in combined mode —
every source entry carries a hash and the FOD diagnostics contain the
hash token. -/
def translateOk (env : Env) (args : TranslateArgs) (w0 : World) : Bool :=
  reachesTranslator env args w0 &&
  (match lookupKey (resolvedOutput env args w0)
      (worldAfterTranslator env args w0).files with
   | some (.lockData l) =>
     !args.combined ||
       (l.sources.all (fun kv => kv.2.any (fun f => f.1 == "hash")) &&
        (extractFOD env.procFOD.stderr.data).isSome)
   | some (.rawData _) => false
   | none => false)

/-! ### Concrete sample data, used to evaluate the definitions -/

/-- A lock file with two sources, each carrying a `hash` field. -/
def sampleLock : LockFile :=
  ⟨"",
   [("src1", [("hash", "sha256-aaa"), ("url", "https://example.org/a")]),
    ("src2", [("hash", "sha256-bbb")])]⟩

/-- A filesystem holding one manifest file and one project directory. -/
def sampleWorld : World :=
  ⟨[("pkgA.json", .rawData "manifest")], ["proj"]⟩

/-- A combined-mode invocation on the sample world. -/
def sampleArgs : TranslateArgs :=
  ⟨["pkgA.json"], "out.lock", "", true, []⟩

/-- An environment whose oracle and build succeed, whose translator
writes `sampleLock` to the output path, and whose FOD build log contains
no `FOD_PATH=` token. -/
def sampleEnvNoToken : Env :=
  ⟨id, ⟨0, "", ""⟩, ⟨"nodejs", "pure", "package-lock", []⟩, ⟨0, "", ""⟩,
   fun _ w => writeFile w "out.lock" (.lockData sampleLock),
   ⟨1, "build stdout", "no token in this log"⟩⟩

/-- An environment for exercising the argument merge: the oracle returns
two defaults, one of which is also given explicitly. -/
def mergeEnv : Env :=
  ⟨id, ⟨0, "", ""⟩,
   ⟨"nodejs", "pure", "package-lock",
    [("depth", .str "1"), ("flavor", .str "vanilla")]⟩,
   ⟨0, "", ""⟩, fun _ w => w, ⟨1, "", ""⟩⟩

/-- An invocation overriding the `depth` special argument. -/
def mergeArgs : TranslateArgs :=
  ⟨["pkgA.json"], "out.lock", "", false, [("depth", .str "9")]⟩

/-! ### Lemmas about the dict model -/

theorem firstSome_none {V : Type} (b : Option V) : firstSome none b = b := rfl

theorem firstSome_some {V : Type} (v : V) (b : Option V) :
    firstSome (some v) b = some v := rfl

theorem firstSome_none_right {V : Type} (a : Option V) :
    firstSome a none = a := by
  cases a <;> rfl

theorem lookupKey_append {V : Type} (d l : List (String × V)) (k : String) :
    lookupKey k (d ++ l) = firstSome (lookupKey k d) (lookupKey k l) := by
  induction d with
  | nil => rfl
  | cons p d ih =>
    rw [List.cons_append, lookupKey, lookupKey]
    by_cases h : (p.1 == k) = true
    · rw [if_pos h, if_pos h, firstSome_some]
    · rw [if_neg h, if_neg h, ih]

theorem lookupKey_eq_none_iff {V : Type} (d : List (String × V)) (k : String) :
    lookupKey k d = none ↔ k ∉ keysOf d := by
  induction d with
  | nil => simp [lookupKey, keysOf]
  | cons p d ih =>
    rw [lookupKey, keysOf, List.map_cons]
    by_cases h : p.1 = k
    · simp [h]
    · simp only [keysOf] at ih
      simp [h, ih, Ne.symm h]

theorem any_keys_iff {V : Type} (d : List (String × V)) (k : String) :
    d.any (fun p => p.1 == k) = true ↔ k ∈ keysOf d := by
  simp [List.any_eq_true, keysOf, List.mem_map]

theorem lookupKey_map_replace_ne {V : Type} (d : List (String × V))
    (k : String) (v : V) (k2 : String) (h : k ≠ k2) :
    lookupKey k2 (d.map (fun p => if p.1 == k then (k, v) else p)) =
      lookupKey k2 d := by
  induction d with
  | nil => rfl
  | cons p d ih =>
    simp only [beq_iff_eq] at ih ⊢
    simp only [List.map_cons, lookupKey, beq_iff_eq]
    by_cases hp : p.1 = k
    · simp [hp, h, ih]
    · simp [hp, ih]

theorem lookupKey_map_replace_eq {V : Type} (d : List (String × V))
    (k : String) (v : V) (ha : d.any (fun p => p.1 == k) = true) :
    lookupKey k (d.map (fun p => if p.1 == k then (k, v) else p)) = some v := by
  induction d with
  | nil => simp at ha
  | cons p d ih =>
    by_cases hp : p.1 = k
    · simp [List.map_cons, lookupKey, hp]
    · rw [List.any_cons] at ha
      cases hb : (p.1 == k) with
      | true => exact absurd (eq_of_beq hb) hp
      | false =>
        rw [hb, Bool.false_or] at ha
        simp only [beq_iff_eq] at ih ⊢
        simp only [List.map_cons, lookupKey, beq_iff_eq]
        simp [hp, ih ha]

theorem lookupKey_insertKey {V : Type} (d : List (String × V)) (k : String)
    (v : V) (k2 : String) :
    lookupKey k2 (insertKey d k v) =
      if k = k2 then some v else lookupKey k2 d := by
  rw [insertKey]
  by_cases ha : d.any (fun p => p.1 == k) = true
  · rw [if_pos ha]
    by_cases hk : k = k2
    · rw [if_pos hk]
      subst hk
      exact lookupKey_map_replace_eq d k v ha
    · rw [if_neg hk, lookupKey_map_replace_ne d k v k2 hk]
  · rw [if_neg ha, lookupKey_append]
    by_cases hk : k = k2
    · have hn : lookupKey k2 d = none := by
        rw [lookupKey_eq_none_iff]
        intro hm
        exact ha ((any_keys_iff d k).mpr (hk ▸ hm))
      rw [hn, firstSome_none, if_pos hk]
      simp [lookupKey, hk]
    · have hr : lookupKey k2 [(k, v)] = none := by
        simp [lookupKey, hk]
      rw [hr, firstSome_none_right, if_neg hk]

theorem keysOf_insertKey {V : Type} (d : List (String × V)) (k : String) (v : V) :
    keysOf (insertKey d k v) =
      if d.any (fun p => p.1 == k) = true then keysOf d else keysOf d ++ [k] := by
  rw [insertKey]
  by_cases ha : d.any (fun p => p.1 == k) = true
  · rw [if_pos ha, if_pos ha]
    unfold keysOf
    rw [List.map_map]
    apply List.map_congr_left
    intro p _
    by_cases hp : p.1 = k <;> simp [hp]
  · rw [if_neg ha, if_neg ha, keysOf, keysOf, List.map_append]
    rfl

theorem nodup_keys_insertKey {V : Type} (d : List (String × V)) (k : String)
    (v : V) (h : (keysOf d).Nodup) : (keysOf (insertKey d k v)).Nodup := by
  rw [keysOf_insertKey]
  by_cases ha : d.any (fun p => p.1 == k) = true
  · rw [if_pos ha]
    exact h
  · rw [if_neg ha]
    have hk : k ∉ keysOf d := fun hm => ha ((any_keys_iff d k).mpr hm)
    simp [List.nodup_append, h, hk]

theorem nodup_keys_updateDict {V : Type} (o : List (String × V)) :
    ∀ d : List (String × V), (keysOf d).Nodup → (keysOf (updateDict d o)).Nodup := by
  induction o with
  | nil => exact fun d h => h
  | cons p o ih =>
    intro d h
    rw [updateDict, List.foldl_cons]
    exact ih _ (nodup_keys_insertKey d p.1 p.2 h)

/-- The fundamental property of `d.update(o)` for a dict-shaped overlay
(no duplicate keys): a key bound in the overlay gets the value of the overlay, any other key keeps its old value. -/
theorem lookupKey_updateDict {V : Type} (o : List (String × V)) :
    ∀ d : List (String × V), (keysOf o).Nodup → ∀ k : String,
      lookupKey k (updateDict d o) =
        firstSome (lookupKey k o) (lookupKey k d) := by
  induction o with
  | nil =>
    intro d _ k
    rfl
  | cons p o ih =>
    intro d hnd k
    rw [keysOf, List.map_cons] at hnd
    have hnotin : p.1 ∉ o.map Prod.fst := (List.nodup_cons.mp hnd).1
    have hno : (keysOf o).Nodup := (List.nodup_cons.mp hnd).2
    rw [updateDict, List.foldl_cons]
    have := ih (insertKey d p.1 p.2) hno k
    rw [updateDict] at this
    rw [this, lookupKey_insertKey, lookupKey]
    by_cases hk : p.1 = k
    · have ho : lookupKey k o = none := by
        rw [lookupKey_eq_none_iff]
        intro hm
        exact hnotin (hk ▸ hm)
      simp [ho, hk, firstSome_none, firstSome_some]
    · rw [if_neg hk, if_neg (by simpa using hk)]

/-! ### Lemmas about hash extraction -/

theorem dropWhile_first_false {p : Char → Bool} (l : List Char) (x : Char)
    (xs : List Char) (h : l.dropWhile p = x :: xs) : p x = false := by
  induction l with
  | nil => simp [List.dropWhile] at h
  | cons a as ih =>
    rw [List.dropWhile_cons] at h
    by_cases ha : p a = true
    · rw [if_pos ha] at h
      exact ih h
    · rw [if_neg ha] at h
      cases h
      exact Bool.not_eq_true _ ▸ ha

theorem dropWhile_ne_nil_iff_any {l : List Char} :
    (l.dropWhile (fun c => c != '=') ≠ []) ↔ l.any (fun c => c == '=') = true := by
  induction l with
  | nil => simp [List.dropWhile]
  | cons a as ih =>
    rw [List.dropWhile_cons, List.any_cons]
    by_cases ha : a = '='
    · simp [ha]
    · simp [ha, ih]

theorem lastEqSplit_isSome (cs : List Char) :
    (lastEqSplit cs).isSome = cs.any (fun c => c == '=') := by
  rw [lastEqSplit]
  cases h : cs.reverse.dropWhile (fun c => c != '=') with
  | nil =>
    have : ¬ cs.reverse.any (fun c => c == '=') = true := by
      rw [← dropWhile_ne_nil_iff_any]
      simp [h]
    simp only [Option.isSome_none]
    rw [List.any_reverse] at this
    simp [this]
  | cons x xs =>
    have : cs.reverse.any (fun c => c == '=') = true := by
      rw [← dropWhile_ne_nil_iff_any, h]
      simp
    rw [List.any_reverse] at this
    simp [this]

theorem lastEqSplit_getLast (cs g : List Char) (h : lastEqSplit cs = some g) :
    g.getLast? = some '=' := by
  rw [lastEqSplit] at h
  cases hd : cs.reverse.dropWhile (fun c => c != '=') with
  | nil => rw [hd] at h; exact absurd h (by simp)
  | cons x xs =>
    rw [hd] at h
    have hx : (x != '=') = false := dropWhile_first_false _ x xs hd
    have hx2 : x = '=' := by simpa using hx
    cases h
    rw [List.getLast?_reverse]
    simp [hx2]

theorem fodMatchB_nil (i : Nat) : fodMatchB [] i = false := by
  cases i <;> rfl

theorem fodMatchB_succ (c : Char) (rest : List Char) (i : Nat) :
    fodMatchB (c :: rest) (i + 1) = fodMatchB rest i := rfl

theorem fodMatchB_zero (cs : List Char) :
    fodMatchB cs 0 =
      (fodToken.isPrefixOf cs && (lineSeg (cs.drop 9)).any (fun c => c == '=')) := rfl

/-- The search succeeds exactly when some starting position admits a
match: a `FOD_PATH=` literal with a further `=` on the same line. -/
theorem extractFOD_isSome_iff (cs : List Char) :
    (extractFOD cs).isSome = true ↔ ∃ i, fodMatchB cs i = true := by
  induction cs with
  | nil =>
    rw [extractFOD]
    simp [fodMatchB_nil]
  | cons c rest ih =>
    rw [extractFOD]
    by_cases hp : fodToken.isPrefixOf (c :: rest) = true
    · rw [if_pos hp]
      cases hs : lastEqSplit (lineSeg (List.drop 8 rest)) with
      | some g =>
        simp only [Option.isSome_some, true_iff]
        refine ⟨0, ?_⟩
        rw [fodMatchB_zero]
        have ha := lastEqSplit_isSome (lineSeg (List.drop 8 rest))
        rw [hs] at ha
        rw [hp, Bool.true_and]
        exact ha.symm
      | none =>
        rw [ih]
        have h0 : fodMatchB (c :: rest) 0 = false := by
          rw [fodMatchB_zero]
          have ha := lastEqSplit_isSome (lineSeg (List.drop 8 rest))
          rw [hs] at ha
          rw [(show ((c :: rest).drop 9) = List.drop 8 rest from rfl), ← ha]
          simp
        constructor
        · rintro ⟨i, hi⟩
          exact ⟨i + 1, by rw [fodMatchB_succ]; exact hi⟩
        · rintro ⟨i, hi⟩
          cases i with
          | zero => exact absurd hi (by simp [h0])
          | succ i => exact ⟨i, by rw [fodMatchB_succ] at hi; exact hi⟩
    · rw [if_neg hp]
      rw [ih]
      have h0 : fodMatchB (c :: rest) 0 = false := by
        rw [fodMatchB_zero]
        simp only [Bool.not_eq_true] at hp
        rw [hp, Bool.false_and]
      constructor
      · rintro ⟨i, hi⟩
        exact ⟨i + 1, by rw [fodMatchB_succ]; exact hi⟩
      · rintro ⟨i, hi⟩
        cases i with
        | zero => exact absurd hi (by simp [h0])
        | succ i => exact ⟨i, by rw [fodMatchB_succ] at hi; exact hi⟩

/-- The extracted capture belongs to the leftmost feasible starting
position: everything from just after that `FOD_PATH=` literal up to the
last `=` of that line. -/
theorem extractFOD_least (cs : List Char) : ∀ i : Nat, fodMatchB cs i = true →
    (∀ j, j < i → fodMatchB cs j = false) →
    extractFOD cs = lastEqSplit (lineSeg (cs.drop (i + 9))) := by
  induction cs with
  | nil =>
    intro i h _
    rw [fodMatchB_nil] at h
    exact absurd h (by simp)
  | cons c rest ih =>
    intro i h hmin
    cases i with
    | zero =>
      rw [fodMatchB_zero] at h
      have hp : fodToken.isPrefixOf (c :: rest) = true := by
        cases hb : fodToken.isPrefixOf (c :: rest)
        · rw [hb, Bool.false_and] at h
          exact absurd h (by simp)
        · rfl
      have ha : (lineSeg ((c :: rest).drop 9)).any (fun ch => ch == '=') = true := by
        rw [hp, Bool.true_and] at h
        exact h
      rw [extractFOD, if_pos hp]
      have hs := lastEqSplit_isSome (lineSeg (List.drop 8 rest))
      rw [(show ((c :: rest).drop 9) = List.drop 8 rest from rfl)] at ha
      rw [ha] at hs
      cases hs2 : lastEqSplit (lineSeg (List.drop 8 rest)) with
      | none => rw [hs2] at hs; exact absurd hs (by simp)
      | some g => exact hs2.symm
    | succ i =>
      have h0 : fodMatchB (c :: rest) 0 = false := hmin 0 (Nat.succ_pos i)
      rw [extractFOD]
      have htail : extractFOD rest = lastEqSplit (lineSeg (rest.drop (i + 9))) := by
        apply ih i
        · rw [← fodMatchB_succ c rest i]
          exact h
        · intro j hj
          rw [← fodMatchB_succ c rest j]
          exact hmin (j + 1) (Nat.succ_lt_succ hj)
      have hgoal : (lineSeg ((c :: rest).drop (i + 1 + 9))) = lineSeg (rest.drop (i + 9)) := by
        congr 1
      by_cases hp : fodToken.isPrefixOf (c :: rest) = true
      · rw [if_pos hp]
        cases hs2 : lastEqSplit (lineSeg (List.drop 8 rest)) with
        | some g =>
          exfalso
          rw [fodMatchB_zero, hp, Bool.true_and] at h0
          have hs := lastEqSplit_isSome (lineSeg (List.drop 8 rest))
          rw [hs2] at hs
          rw [(show ((c :: rest).drop 9) = List.drop 8 rest from rfl)] at h0
          rw [h0] at hs
          exact absurd hs (by simp)
        | none =>
          rw [htail]
          congr 1
      · rw [if_neg hp, htail]
        congr 1

/-- Every successful extraction ends in `=` (the capture group must). -/
theorem extractFOD_ends_eq (cs : List Char) :
    ∀ g : List Char, extractFOD cs = some g → g.getLast? = some '=' := by
  induction cs with
  | nil =>
    intro g h
    rw [extractFOD] at h
    exact absurd h (by simp)
  | cons c rest ih =>
    intro g h
    rw [extractFOD] at h
    by_cases hp : fodToken.isPrefixOf (c :: rest) = true
    · rw [if_pos hp] at h
      cases hs : lastEqSplit (lineSeg (List.drop 8 rest)) with
      | some g2 =>
        rw [hs] at h
        cases h
        exact lastEqSplit_getLast _ _ hs
      | none =>
        rw [hs] at h
        exact ih g h
    · rw [if_neg hp] at h
      exact ih g h

/-! ### Lemmas about hash stripping -/

theorem stripSources_eq (s : List (String × Entry)) :
    stripSources s =
      if s.all (fun kv => kv.2.any (fun f => f.1 == "hash")) then
        .ok (s.map (fun kv => (kv.1, kv.2.filter (fun f => f.1 != "hash"))))
      else .error .keyError := by
  induction s with
  | nil => rfl
  | cons kv rest ih =>
    rw [stripSources, List.all_cons, delHash]
    by_cases hh : kv.2.any (fun f => f.1 == "hash") = true
    · rw [if_pos hh, hh, Bool.true_and, ih]
      by_cases hr : rest.all (fun kv => kv.2.any (fun f => f.1 == "hash")) = true
      · rw [if_pos hr, if_pos hr, List.map_cons]
      · rw [if_neg hr, if_neg hr]
    · rw [if_neg hh]
      have hh2 : kv.2.any (fun f => f.1 == "hash") = false := by
        rwa [Bool.not_eq_true] at hh
      rw [hh2, Bool.false_and, if_neg (by simp)]

/-- `strip_hashes_from_lock` characterized: it terminates normally iff
every source entry carries a `hash` field, in which case exactly that
field is removed from every entry; otherwise it raises `KeyError`. -/
theorem strip_hashes_eq (l : LockFile) :
    strip_hashes_from_lock l =
      if l.sources.all (fun kv => kv.2.any (fun f => f.1 == "hash")) then
        .ok ⟨l.sourcesCombinedHash,
             l.sources.map (fun kv => (kv.1, kv.2.filter (fun f => f.1 != "hash")))⟩
      else .error .keyError := by
  rw [strip_hashes_from_lock, stripSources_eq]
  by_cases h : l.sources.all (fun kv => kv.2.any (fun f => f.1 == "hash")) = true
  · rw [if_pos h, if_pos h]
  · rw [if_neg h, if_neg h]

theorem checkpointA_eq (l : LockFile) :
    checkpointA l =
      if l.sources.all (fun kv => kv.2.any (fun f => f.1 == "hash")) then
        .ok (checkpointAContent l)
      else .error .keyError := by
  rw [checkpointA, strip_hashes_eq]
  by_cases h : l.sources.all (fun kv => kv.2.any (fun f => f.1 == "hash")) = true
  · rw [if_pos h, if_pos h]
    rfl
  · rw [if_neg h, if_neg h]

theorem checkpointAContent_no_hash (l : LockFile) :
    (checkpointAContent l).sources.all
      (fun kv => kv.2.all (fun f => f.1 != "hash")) = true := by
  rw [checkpointAContent]
  rw [List.all_eq_true]
  intro kv hkv
  rw [List.mem_map] at hkv
  obtain ⟨kv0, _, heq⟩ := hkv
  rw [← heq]
  rw [List.all_eq_true]
  intro f hf
  exact (List.mem_filter.mp hf).2

/-! ### Lemmas about the filesystem model -/

theorem lookupKey_filter_ne_self {V : Type} (d : List (String × V)) (p : String) :
    lookupKey p (d.filter (fun f => f.1 != p)) = none := by
  induction d with
  | nil => rfl
  | cons q d ih =>
    rw [List.filter_cons]
    by_cases hq : q.1 = p
    · rw [if_neg (by simp [hq])]
      exact ih
    · rw [if_pos (by simpa using hq), lookupKey, if_neg (by simpa using hq)]
      exact ih

theorem lookupKey_filter_none {V : Type} (d : List (String × V)) (p : String)
    (q : String × V → Bool) (h : lookupKey p d = none) :
    lookupKey p (d.filter q) = none := by
  induction d with
  | nil => rfl
  | cons e d ih =>
    rw [lookupKey] at h
    by_cases he : e.1 = p
    · rw [if_pos (by simpa using he)] at h
      exact absurd h (by simp)
    · rw [if_neg (by simpa using he)] at h
      rw [List.filter_cons]
      by_cases hq : q e = true
      · rw [if_pos hq, lookupKey, if_neg (by simpa using he)]
        exact ih h
      · rw [if_neg hq]
        exact ih h

/-- After the staging steps the output path never holds a file: either it
was just removed, or it did not exist as a file in the first place. -/
theorem isFileW_stagedWorld (env : Env) (args : TranslateArgs) (w0 : World) :
    isFileW (stagedWorld env args w0) (resolvedOutput env args w0) = false := by
  rw [stagedWorld]
  have hnone : lookupKey (resolvedOutput env args w0)
      (if pathExists w0 (resolvedOutput env args w0) then
        removeFile w0 (resolvedOutput env args w0)
      else w0).files = none := by
    by_cases hx : pathExists w0 (resolvedOutput env args w0) = true
    · rw [if_pos hx, removeFile]
      exact lookupKey_filter_ne_self _ _
    · rw [if_neg hx]
      cases hl : lookupKey (resolvedOutput env args w0) w0.files with
      | none => rfl
      | some d =>
        exfalso
        apply hx
        rw [pathExists, isFileW, hl]
        simp
  rw [isFileW, removeFile]
  rw [lookupKey_filter_none _ _ _ hnone]
  rfl

/-! ### Lemmas about the control flow of `translate` -/

theorem validateInputs_ok_of_all (w : World) (ps : List String)
    (h : ∀ p ∈ ps, pathExists w p = true) :
    validateInputs w ps =
      .ok (ps.filter (fun p => isFileW w p), ps.filter (fun p => isDirW w p)) := by
  rw [validateInputs]
  have hf : ps.find? (fun p => !(pathExists w p)) = none := by
    rw [List.find?_eq_none]
    intro x hx
    simp [h x hx]
  rw [hf]

theorem validateInputs_error_iff (w : World) (ps : List String) :
    (∃ e, validateInputs w ps = .error e) ↔ ∃ p ∈ ps, pathExists w p = false := by
  constructor
  · rintro ⟨e, he⟩
    rw [validateInputs] at he
    cases hf : ps.find? (fun p => !(pathExists w p)) with
    | none => rw [hf] at he; exact absurd he (by simp)
    | some p =>
      refine ⟨p, List.mem_of_find?_eq_some hf, ?_⟩
      have := List.find?_some hf
      simpa using this
  · rintro ⟨p, hp, hpe⟩
    rw [validateInputs]
    cases hf : ps.find? (fun p => !(pathExists w p)) with
    | none =>
      exfalso
      rw [List.find?_eq_none] at hf
      exact hf p hp (by simp [hpe])
    | some p2 => exact ⟨.validationError p2, rfl⟩

theorem reach_components (env : Env) (args : TranslateArgs) (w0 : World)
    (h : reachesTranslator env args w0 = true) :
    (∀ p ∈ args.input, pathExists w0 p = true) ∧
    removeIfExists w0 (resolvedOutput env args w0) =
      .ok (if pathExists w0 (resolvedOutput env args w0) then
            removeFile w0 (resolvedOutput env args w0)
          else w0) ∧
    env.procEval.returncode = 0 ∧ env.procBuild.returncode = 0 := by
  rw [reachesTranslator] at h
  have h1 := h
  rw [Bool.and_assoc, Bool.and_assoc] at h1
  rcases Bool.and_eq_true_iff.mp h1 with ⟨ha, h2⟩
  rcases Bool.and_eq_true_iff.mp h2 with ⟨hb, h3⟩
  rcases Bool.and_eq_true_iff.mp h3 with ⟨hc, hd⟩
  refine ⟨?_, ?_, by simpa using hc, by simpa using hd⟩
  · intro p hp
    exact List.all_eq_true.mp ha p hp
  · rw [removeIfExists]
    by_cases hx : pathExists w0 (resolvedOutput env args w0) = true
    · rw [if_pos hx, if_pos hx]
      have hfile : isFileW w0 (resolvedOutput env args w0) = true := by
        rcases Bool.or_eq_true_iff.mp hb with hno | hyes
        · rw [hx] at hno; exact absurd hno (by simp)
        · exact hyes
      rw [if_pos hfile]
    · rw [if_neg hx, if_neg hx]

/-- Under the reach conditions, `translate` is exactly the translator
invocation on the staged filesystem followed by the post phase. -/
theorem translate_eq_post (env : Env) (args : TranslateArgs) (w0 : World)
    (h : reachesTranslator env args w0 = true) :
    translate env args w0 =
      postTranslate env args (resolvedOutput env args w0)
        (worldAfterTranslator env args w0) := by
  obtain ⟨hall, hrm, he, hb⟩ := reach_components env args w0 h
  rw [translate, validateInputs_ok_of_all w0 args.input hall, hrm]
  simp only [he, hb, ne_eq, not_true_eq_false]
  rfl

theorem validateInputs_ok_all (w : World) (ps : List String)
    (pr : List String × List String) (h : validateInputs w ps = .ok pr) :
    ps.all (fun p => pathExists w p) = true := by
  rw [validateInputs] at h
  cases hf : ps.find? (fun p => !(pathExists w p)) with
  | some p => rw [hf] at h; exact absurd h (by simp)
  | none =>
    rw [List.all_eq_true]
    intro x hx
    rw [List.find?_eq_none] at hf
    have := hf x hx
    simpa using this

theorem removeIfExists_ok_cond (w : World) (p : String) (w1 : World)
    (h : removeIfExists w p = .ok w1) :
    (!(pathExists w p) || isFileW w p) = true := by
  rw [removeIfExists] at h
  by_cases hx : pathExists w p = true
  · rw [if_pos hx] at h
    by_cases hf : isFileW w p = true
    · rw [hf, Bool.or_true]
    · rw [if_neg hf] at h
      exact absurd h (by simp)
  · rw [Bool.not_eq_true] at hx
    rw [hx]
    rfl

theorem firstSome_assoc {V : Type} (a b c : Option V) :
    firstSome (firstSome a b) c = firstSome a (firstSome b c) := by
  cases a <;> cases b <;> rfl

/-! ### The claims -/

/-- C4.  For every ordered list of input paths, the Validator fails with
a ValidationError iff at least one listed path does not exist; otherwise
it returns the existing paths that are files and the existing paths that
are directories, each preserving the relative order of the input list
(the model is pure, so there are no side effects). -/
theorem validator_partition (w : World) (ps : List String) :
    ((∃ e, validateInputs w ps = .error e) ↔ ∃ p ∈ ps, pathExists w p = false)
    ∧ ((∀ p ∈ ps, pathExists w p = true) →
        validateInputs w ps =
          .ok (ps.filter (fun p => isFileW w p), ps.filter (fun p => isDirW w p))) :=
  ⟨validateInputs_error_iff w ps, validateInputs_ok_of_all w ps⟩

/-- Witness for C4 on a concrete world: one file, one directory. -/
theorem validator_partition_witness :
    (∀ p ∈ ["pkgA.json", "proj"], pathExists sampleWorld p = true)
    ∧ validateInputs sampleWorld ["pkgA.json", "proj"] =
        .ok (["pkgA.json", "proj"].filter (fun p => isFileW sampleWorld p),
             ["pkgA.json", "proj"].filter (fun p => isDirW sampleWorld p)) :=
  ⟨by decide, (validator_partition sampleWorld ["pkgA.json", "proj"]).2 (by decide)⟩

/-- C9.  `strip_hashes_from_lock` terminates normally iff every source
entry carries a `hash` field, in which case exactly the `hash` binding
is removed from each entry, every other field staying unchanged;
if some entry lacks the field, it raises a `KeyError`. -/
theorem strip_hashes_requires_all (l : LockFile) :
    strip_hashes_from_lock l =
      if l.sources.all (fun kv => kv.2.any (fun f => f.1 == "hash")) then
        .ok ⟨l.sourcesCombinedHash,
             l.sources.map (fun kv => (kv.1, kv.2.filter (fun f => f.1 != "hash")))⟩
      else .error .keyError :=
  strip_hashes_eq l

/-- C7.  For a lock whose source entries all hold a `hash` field, the
hash-stripping step of consolidation (checkpoint A) leaves zero entries
holding a `hash` field, an empty `sourcesCombinedHash`, and the same
number of source entries. -/
theorem checkpointA_strips_all (l : LockFile)
    (h : l.sources.all (fun kv => kv.2.any (fun f => f.1 == "hash")) = true) :
    checkpointA l = .ok (checkpointAContent l)
    ∧ (checkpointAContent l).sources.all
        (fun kv => kv.2.all (fun f => f.1 != "hash")) = true
    ∧ (checkpointAContent l).sourcesCombinedHash = ""
    ∧ (checkpointAContent l).sources.length = l.sources.length := by
  refine ⟨?_, checkpointAContent_no_hash l, rfl, ?_⟩
  · rw [checkpointA_eq, if_pos h]
  · rw [checkpointAContent]
    exact List.length_map _ _

/-- Witness for C7 on the two-source sample lock. -/
theorem checkpointA_strips_all_witness :
    sampleLock.sources.all (fun kv => kv.2.any (fun f => f.1 == "hash")) = true
    ∧ (checkpointA sampleLock = .ok (checkpointAContent sampleLock)
       ∧ (checkpointAContent sampleLock).sources.all
           (fun kv => kv.2.all (fun f => f.1 != "hash")) = true
       ∧ (checkpointAContent sampleLock).sourcesCombinedHash = ""
       ∧ (checkpointAContent sampleLock).sources.length = sampleLock.sources.length) :=
  ⟨by decide, checkpointA_strips_all sampleLock (by decide)⟩

/-- C10.  Extraction succeeds iff some position carries the literal
`FOD_PATH=` with a later `=` on the same line; the extracted value is
the capture of the leftmost such position, running to the last `=` of
that line; every extracted value ends in `=`; and in particular the
documented-looking token `FOD_PATH=abc123` without a trailing `=` is
not matched. -/
theorem extraction_semantics :
    (∀ cs : List Char,
      ((extractFOD cs).isSome = true ↔ ∃ i, fodMatchB cs i = true)
      ∧ (∀ i, fodMatchB cs i = true → (∀ j, j < i → fodMatchB cs j = false) →
          extractFOD cs = lastEqSplit (lineSeg (cs.drop (i + 9))))
      ∧ (∀ g, extractFOD cs = some g → g.getLast? = some '='))
    ∧ extractFOD ("FOD_PATH=abc123".data) = none :=
  ⟨fun cs => ⟨extractFOD_isSome_iff cs, extractFOD_least cs, extractFOD_ends_eq cs⟩,
   by decide⟩

/-- Witness for C10: the match at position 0 of `FOD_PATH=a=` is the
leftmost one and the extracted value is `a=`. -/
theorem extraction_semantics_witness :
    fodMatchB ("FOD_PATH=a=".data) 0 = true
    ∧ extractFOD ("FOD_PATH=a=".data) =
        lastEqSplit (lineSeg (("FOD_PATH=a=".data).drop (0 + 9)))
    ∧ extractFOD ("FOD_PATH=a=".data) = some ("a=".data) :=
  ⟨by decide,
   (extraction_semantics.1 ("FOD_PATH=a=".data)).2.1 0 (by decide)
     (fun j hj => absurd hj (Nat.not_lt_zero j)),
   by decide⟩

/-- C2, counterexample.  A diagnostic text can contain the token
`FOD_PATH=abc123==` while extraction returns a longer capture: the
greedy group runs to the last `=` of the line, not to the end of the
contained token. -/
theorem extraction_token_counterexample :
    List.IsInfix ("FOD_PATH=abc123==".data) ("FOD_PATH=abc123==x=".data)
    ∧ extractFOD ("FOD_PATH=abc123==x=".data) ≠ some ("abc123==".data)
    ∧ extractFOD ("FOD_PATH=abc123==x=".data) = some ("abc123==x=".data) := by
  refine ⟨⟨[], ['x', '='], by decide⟩, by decide, by decide⟩

/-- C2, amended.  For the diagnostic text `FOD_PATH=abc123==` itself the
extraction yields `abc123==`; a text with no occurrence of `FOD_PATH=`
followed by an `=`-terminated sequence on the same line (in particular a
text with no `FOD_PATH=` token at all) fails fatally with the
hash-extraction error, surfacing both captured output streams. -/
theorem extraction_amended :
    extractFOD ("FOD_PATH=abc123==".data) = some ("abc123==".data)
    ∧ (∀ pr : ProcResult, extractFOD pr.stderr.data = none →
        hashFromFOD pr = .error (.hashExtractionError pr.stderr pr.stdout))
    ∧ (∀ cs : List Char, (∀ i, fodMatchB cs i = false) → extractFOD cs = none) := by
  refine ⟨by decide, ?_, ?_⟩
  · intro pr h
    rw [hashFromFOD, h]
  · intro cs h
    cases hx : extractFOD cs with
    | none => rfl
    | some g =>
      exfalso
      have hi : (extractFOD cs).isSome = true := by rw [hx]; rfl
      obtain ⟨i, hi⟩ := (extractFOD_isSome_iff cs).mp hi
      rw [h i] at hi
      exact absurd hi (by simp)

/-- Witness for C2 (amended): a concrete FOD build whose stderr holds no
token makes `hashFromFOD` surface both streams. -/
theorem extraction_amended_witness :
    extractFOD (ProcResult.stderr ⟨1, "fod stdout", "fod stderr"⟩).data = none
    ∧ hashFromFOD ⟨1, "fod stdout", "fod stderr"⟩ =
        .error (.hashExtractionError "fod stderr" "fod stdout") :=
  ⟨by decide, extraction_amended.2.1 ⟨1, "fod stdout", "fod stderr"⟩ (by decide)⟩

/-- C3.  The argument object handed to the translator resolves every
name by precedence: an explicit CLI special argument wins over a
computed `TranslateRequest` field, which wins over an oracle-returned
default; a name bound in only one source keeps the value of that source.
The hypothesis records that the explicit special args form a dict
(no duplicate names). -/
theorem merge_precedence (env : Env) (args : TranslateArgs) (w0 : World)
    (k : String) (h : (keysOf args.specialArgs).Nodup) :
    lookupKey k (mergedArgumentsOf env args w0) =
      firstSome (lookupKey k args.specialArgs)
        (firstSome
          (lookupKey k
            (baseFields (inputFilesOf w0 args) (inputDirectoriesOf w0 args)
              (resolvedOutput env args w0) args.translator))
          (lookupKey k env.oracleOutput.specialArgsDefaults)) := by
  rw [mergedArgumentsOf]
  have hbase : (keysOf (baseFields (inputFilesOf w0 args) (inputDirectoriesOf w0 args)
      (resolvedOutput env args w0) args.translator)).Nodup := by
    have he : keysOf (baseFields (inputFilesOf w0 args) (inputDirectoriesOf w0 args)
        (resolvedOutput env args w0) args.translator) =
        ["inputFiles", "inputDirectories", "outputFile", "selector"] := rfl
    rw [he]
    decide
  have hov : (keysOf (updateDict
      (baseFields (inputFilesOf w0 args) (inputDirectoriesOf w0 args)
        (resolvedOutput env args w0) args.translator) args.specialArgs)).Nodup :=
    nodup_keys_updateDict args.specialArgs _ hbase
  rw [lookupKey_updateDict _ _ hov k, lookupKey_updateDict _ _ h k, firstSome_assoc]

/-- Witness for C3: `depth` is bound both as an oracle default and as an
explicit CLI value; the merged object holds the explicit value `9`. -/
theorem merge_precedence_witness :
    (keysOf mergeArgs.specialArgs).Nodup
    ∧ lookupKey "depth" (mergedArgumentsOf mergeEnv mergeArgs sampleWorld) =
        firstSome (lookupKey "depth" mergeArgs.specialArgs)
          (firstSome
            (lookupKey "depth"
              (baseFields (inputFilesOf sampleWorld mergeArgs)
                (inputDirectoriesOf sampleWorld mergeArgs)
                (resolvedOutput mergeEnv mergeArgs sampleWorld) mergeArgs.translator))
            (lookupKey "depth" mergeEnv.oracleOutput.specialArgsDefaults))
    ∧ lookupKey "depth" (mergedArgumentsOf mergeEnv mergeArgs sampleWorld) =
        some (.str "9")
    ∧ lookupKey "flavor" (mergedArgumentsOf mergeEnv mergeArgs sampleWorld) =
        some (.str "vanilla") :=
  ⟨by decide,
   merge_precedence mergeEnv mergeArgs sampleWorld "depth" (by decide),
   by decide, by decide⟩

/-- C6.  After the translator executable has run, the post phase fails
with the output-contract violation exactly when no file exists at the
output path; the exit status of the translator and output streams are not
part of the decision (the model discards them, as the code does). -/
theorem output_contract_existence (env : Env) (args : TranslateArgs)
    (out : String) (w3 : World) :
    postTranslate env args out w3 = (.error .outputContractViolation, w3)
      ↔ isFileW w3 out = false := by
  rw [postTranslate, isFileW]
  cases hl : lookupKey out w3.files with
  | none => simp
  | some d =>
    cases d with
    | rawData s => simp
    | lockData lock =>
      simp only []
      by_cases hc : args.combined = true
      · rw [if_pos hc, checkpointA_eq]
        by_cases hh : lock.sources.all (fun kv => kv.2.any (fun f => f.1 == "hash")) = true
        · rw [if_pos hh, hashFromFOD]
          cases hx : extractFOD env.procFOD.stderr.data with
          | none => simp
          | some g => simp
        · rw [if_neg hh]
          simp
      · rw [if_neg hc]
        simp

/-- Witness for C6: on a world without the output file, the post phase
aborts with the output-contract violation. -/
theorem output_contract_existence_witness :
    isFileW sampleWorld "out.lock" = false
    ∧ postTranslate mergeEnv mergeArgs "out.lock" sampleWorld =
        (.error .outputContractViolation, sampleWorld) :=
  ⟨by decide,
   (output_contract_existence mergeEnv mergeArgs "out.lock" sampleWorld).mpr (by decide)⟩

/-- C8.  Whenever a run reaches the translator invocation, the
translator is invoked on the staged filesystem, and on that filesystem
no file exists at the resolved output path: a pre-existing output file
has been removed before the translator runs, so old and new content are
never merged. -/
theorem stale_output_removed (env : Env) (args : TranslateArgs) (w0 : World)
    (h : reachesTranslator env args w0 = true) :
    translate env args w0 =
      postTranslate env args (resolvedOutput env args w0)
        (worldAfterTranslator env args w0)
    ∧ isFileW (stagedWorld env args w0) (resolvedOutput env args w0) = false :=
  ⟨translate_eq_post env args w0 h, isFileW_stagedWorld env args w0⟩

/-- Witness for C8: a concrete reaching run. -/
theorem stale_output_removed_witness :
    reachesTranslator sampleEnvNoToken sampleArgs sampleWorld = true
    ∧ (translate sampleEnvNoToken sampleArgs sampleWorld =
        postTranslate sampleEnvNoToken sampleArgs
          (resolvedOutput sampleEnvNoToken sampleArgs sampleWorld)
          (worldAfterTranslator sampleEnvNoToken sampleArgs sampleWorld)
       ∧ isFileW (stagedWorld sampleEnvNoToken sampleArgs sampleWorld)
           (resolvedOutput sampleEnvNoToken sampleArgs sampleWorld) = false) :=
  ⟨by decide, stale_output_removed sampleEnvNoToken sampleArgs sampleWorld (by decide)⟩

/-- C1.  In combined mode, when the run reaches consolidation (the
translator produced a parseable lock whose entries all carry hashes) and
hash extraction then fails, the run aborts with the hash-extraction
error and the file on disk at the output path is exactly the
checkpoint-A content: every source entry without a `hash` field and an
empty `sourcesCombinedHash`; no rollback to the pre-consolidation
content happens. -/
theorem checkpointA_persists_on_failure (env : Env) (args : TranslateArgs)
    (w0 : World) (l : LockFile)
    (hreach : reachesTranslator env args w0 = true)
    (hcomb : args.combined = true)
    (hlock : lookupKey (resolvedOutput env args w0)
        (worldAfterTranslator env args w0).files = some (.lockData l))
    (hhash : l.sources.all (fun kv => kv.2.any (fun f => f.1 == "hash")) = true)
    (hext : extractFOD env.procFOD.stderr.data = none) :
    translate env args w0 =
      (.error (.hashExtractionError env.procFOD.stderr env.procFOD.stdout),
       writeFile (worldAfterTranslator env args w0) (resolvedOutput env args w0)
         (.lockData (checkpointAContent l)))
    ∧ lookupKey (resolvedOutput env args w0) (translate env args w0).2.files =
        some (.lockData (checkpointAContent l))
    ∧ (checkpointAContent l).sources.all
        (fun kv => kv.2.all (fun f => f.1 != "hash")) = true
    ∧ (checkpointAContent l).sourcesCombinedHash = "" := by
  have h1 : translate env args w0 =
      (.error (.hashExtractionError env.procFOD.stderr env.procFOD.stdout),
       writeFile (worldAfterTranslator env args w0) (resolvedOutput env args w0)
         (.lockData (checkpointAContent l))) := by
    rw [translate_eq_post env args w0 hreach, postTranslate, hlock]
    simp only []
    rw [if_pos hcomb, checkpointA_eq, if_pos hhash, hashFromFOD, hext]
  refine ⟨h1, ?_, checkpointAContent_no_hash l, rfl⟩
  rw [h1]
  show lookupKey (resolvedOutput env args w0)
      (insertKey (worldAfterTranslator env args w0).files (resolvedOutput env args w0)
        (.lockData (checkpointAContent l))) = some (.lockData (checkpointAContent l))
  rw [lookupKey_insertKey, if_pos rfl]

/-- Witness for C1: a concrete combined-mode run whose FOD log lacks the
token; the lock on disk afterwards is the hash-stripped sample lock. -/
theorem checkpointA_persists_on_failure_witness :
    reachesTranslator sampleEnvNoToken sampleArgs sampleWorld = true
    ∧ sampleArgs.combined = true
    ∧ lookupKey (resolvedOutput sampleEnvNoToken sampleArgs sampleWorld)
        (worldAfterTranslator sampleEnvNoToken sampleArgs sampleWorld).files =
        some (.lockData sampleLock)
    ∧ sampleLock.sources.all (fun kv => kv.2.any (fun f => f.1 == "hash")) = true
    ∧ extractFOD sampleEnvNoToken.procFOD.stderr.data = none
    ∧ (translate sampleEnvNoToken sampleArgs sampleWorld =
        (.error (.hashExtractionError sampleEnvNoToken.procFOD.stderr
            sampleEnvNoToken.procFOD.stdout),
         writeFile (worldAfterTranslator sampleEnvNoToken sampleArgs sampleWorld)
           (resolvedOutput sampleEnvNoToken sampleArgs sampleWorld)
           (.lockData (checkpointAContent sampleLock)))
       ∧ lookupKey (resolvedOutput sampleEnvNoToken sampleArgs sampleWorld)
           (translate sampleEnvNoToken sampleArgs sampleWorld).2.files =
           some (.lockData (checkpointAContent sampleLock))
       ∧ (checkpointAContent sampleLock).sources.all
           (fun kv => kv.2.all (fun f => f.1 != "hash")) = true
       ∧ (checkpointAContent sampleLock).sourcesCombinedHash = "") :=
  ⟨by decide, rfl, by decide, by decide, by decide,
   checkpointA_persists_on_failure sampleEnvNoToken sampleArgs sampleWorld sampleLock
     (by decide) rfl (by decide) (by decide) (by decide)⟩

/-- C5.  The process exits 0 exactly on the fully successful runs and 1
on every aborted run — in particular on a missing input path, a
non-zero oracle exit, a non-zero translator-build exit, a missing
produced lock file, and a missing hash token during consolidation, each
of which makes `translateOk` false. -/
theorem exit_code_characterization (env : Env) (args : TranslateArgs) (w0 : World) :
    exitCode (translate env args w0).1 =
      if translateOk env args w0 = true then 0 else 1 := by
  by_cases hr : reachesTranslator env args w0 = true
  · rw [translate_eq_post env args w0 hr, translateOk, hr, Bool.true_and, postTranslate]
    cases hl : lookupKey (resolvedOutput env args w0)
        (worldAfterTranslator env args w0).files with
    | none => simp [exitCode]
    | some d =>
      cases d with
      | rawData s => simp [exitCode]
      | lockData lock =>
        simp only []
        by_cases hc : args.combined = true
        · rw [if_pos hc, checkpointA_eq]
          by_cases hh : lock.sources.all (fun kv => kv.2.any (fun f => f.1 == "hash")) = true
          · rw [if_pos hh, hashFromFOD]
            cases hx : extractFOD env.procFOD.stderr.data with
            | none => simp [exitCode, hc, hh]
            | some g => simp [exitCode, hc, hh]
          · rw [if_neg hh]
            simp [exitCode, hc, hh]
        · rw [if_neg hc]
          simp [exitCode, hc]
  · have hok : translateOk env args w0 = false := by
      rw [translateOk]
      rw [Bool.not_eq_true] at hr
      rw [hr, Bool.false_and]
    rw [hok]
    simp only [Bool.false_eq_true, if_false]
    cases hv : validateInputs w0 args.input with
    | error e => simp [translate, hv, exitCode]
    | ok pr =>
      cases hrm : removeIfExists w0 (resolvedOutput env args w0) with
      | error e => simp [translate, hv, hrm, exitCode]
      | ok w1 =>
        by_cases he : env.procEval.returncode = 0
        · by_cases hb : env.procBuild.returncode = 0
          · exfalso
            have hreach : reachesTranslator env args w0 = true := by
              rw [reachesTranslator, validateInputs_ok_all _ _ _ hv,
                removeIfExists_ok_cond _ _ _ hrm]
              simp [he, hb]
            rw [Bool.not_eq_true] at hr
            rw [hr] at hreach
            exact absurd hreach (by simp)
          · simp [translate, hv, hrm, he, hb, exitCode]
        · simp [translate, hv, hrm, he, exitCode]

end Dream2nix
